import Mathlib

/-!
Shallow embedding of the bill and finance logic of the vibe-financas
repository: the in-memory finance context (transaction, category and
account operations from the FinanceContext provider), the dashboard
aggregations, the bills page due-date bucketing, the bill form
(validation schema and submission), and the settlement processor
described by the specification.
-/

namespace VibeFin

/-- Gregorian leap-year rule, used for calendar month lengths. -/
def isLeap (y : ℤ) : Bool :=
  decide ((y % 4 = 0 ∧ ¬ y % 100 = 0) ∨ y % 400 = 0)

/-- Number of days in the calendar month with absolute index `m`, where
`m = 12 * year + monthOfYear` and month-of-year runs 0 to 11 as in JS dates. -/
def dim (m : ℤ) : ℕ :=
  if m.emod 12 = 1 then (if isLeap (m.ediv 12) then 29 else 28)
  else if m.emod 12 = 3 ∨ m.emod 12 = 5 ∨ m.emod 12 = 8 ∨ m.emod 12 = 10 then 30
  else 31

/-- A point in time as held by a JS `Date`: absolute month index
(`12 * year + monthOfYear`), 1-based day of month, and time within the day. -/
structure JDate where
  m : ℤ
  d : ℕ
  t : ℕ
deriving DecidableEq, Repr

/-- Strict order on time points (JS `<` on dates, date-fns `isBefore`). -/
def jlt (a b : JDate) : Bool :=
  decide (a.m < b.m ∨ (a.m = b.m ∧ (a.d < b.d ∨ (a.d = b.d ∧ a.t < b.t))))

/-- Same calendar day (what date-fns `isToday` tests, relative to a given now). -/
def sameDay (a b : JDate) : Bool := decide (a.m = b.m ∧ a.d = b.d)

/-- Transaction type tag of the finance context. -/
inductive TType where
  | income
  | expense
deriving DecidableEq, Repr

/-- Account kind tag of the finance context. -/
inductive AccountType where
  | bank
  | cash
  | credit
  | investment
deriving DecidableEq, Repr

/-- Bill status: pending or paid. -/
inductive BStatus where
  | pending
  | paid
deriving DecidableEq, Repr

/-- Recurrence period of a recurring bill. -/
inductive RecType where
  | weekly
  | monthly
  | yearly
deriving DecidableEq, Repr

/-- Category entity of the finance context. -/
structure Category where
  id : String
  name : String
  type : TType
  icon : String
  color : Option String
deriving DecidableEq, Repr

/-- Account entity of the finance context. -/
structure Account where
  id : String
  name : String
  balance : ℚ
  type : AccountType
deriving DecidableEq, Repr

/-- Transaction entity of the finance context. -/
structure Transaction where
  id : String
  type : TType
  amount : ℚ
  date : JDate
  categoryId : String
  accountId : String
  description : String
deriving DecidableEq, Repr

/-- Bill entity of the bills feature (shape submitted by the bill form and
rendered by the bills page). -/
structure Bill where
  id : String
  description : String
  amount : ℚ
  dueDate : JDate
  categoryId : String
  status : BStatus
  isInstallment : Bool
  totalInstallments : Option ℕ
  currentInstallment : Option ℕ
  parentBillId : Option String
  isRecurring : Bool
  recurrenceType : Option RecType
  recurrenceEndDate : Option JDate
deriving DecidableEq, Repr

/-- The collections held by the finance provider.  The FinanceContext file
holds transactions, categories and accounts; the bills collection of the
bills feature lives in the same provider state and is carried here so that
bill references are expressible.  The provider operations below never
consult it. -/
structure FinState where
  transactions : List Transaction
  categories : List Category
  accounts : List Account
  bills : List Bill
deriving DecidableEq, Repr

/-- `deleteTransaction` of the FinanceContext provider: keep every
transaction whose id differs from the argument. -/
def deleteTransaction (s : FinState) (id0 : String) : FinState :=
  { s with transactions := s.transactions.filter fun t => decide (t.id ≠ id0) }

/-- `deleteCategory` of the FinanceContext provider: if any transaction
uses the category, do nothing (an error toast is shown); otherwise remove
the category.  Bills are not inspected. -/
def deleteCategory (s : FinState) (id0 : String) : FinState :=
  if 0 < (s.transactions.filter fun t => decide (t.categoryId = id0)).length then s
  else { s with categories := s.categories.filter fun c => decide (c.id ≠ id0) }

/-- `deleteAccount` of the FinanceContext provider: if any transaction
uses the account, do nothing (an error toast is shown); otherwise remove
the account.  Bills are not inspected. -/
def deleteAccount (s : FinState) (id0 : String) : FinState :=
  if 0 < (s.transactions.filter fun t => decide (t.accountId = id0)).length then s
  else { s with accounts := s.accounts.filter fun a => decide (a.id ≠ id0) }

/-- A concrete expense category used in witnesses and counterexamples. -/
def catMoradia : Category := ⟨"c6", "Moradia", .expense, "H", none⟩

/-- A concrete pending bill referencing `catMoradia`, used in witnesses and
counterexamples. -/
def billAluguel : Bill :=
  ⟨"b1", "Aluguel", 150, ⟨24288, 10, 0⟩, "c6", .pending,
    false, none, none, none, false, none, none⟩

/-- Claim C10: `deleteTransaction` removes exactly the transactions whose
id equals the given id and leaves every other transaction, every category,
every account (all balances included) and every bill unchanged; in
particular no account balance is restored when a payment-originated
transaction is deleted. -/
theorem deleteTransaction_frame (s : FinState) (id0 : String) :
    (deleteTransaction s id0).transactions
        = s.transactions.filter (fun t => decide (t.id ≠ id0)) ∧
    (∀ t, t ∈ (deleteTransaction s id0).transactions
        ↔ t ∈ s.transactions ∧ t.id ≠ id0) ∧
    (deleteTransaction s id0).categories = s.categories ∧
    (deleteTransaction s id0).accounts = s.accounts ∧
    (deleteTransaction s id0).bills = s.bills := by
  refine ⟨rfl, ?_, rfl, rfl, rfl⟩
  intro t
  simp [deleteTransaction, List.mem_filter]

/-- Claim C3 counterexample: a category referenced by a bill (and by no
transaction) is deleted successfully and the store mutates, contradicting
that such a deletion always fails and leaves the store unchanged. -/
theorem deleteCategory_bill_ref_cex :
    (∃ b ∈ (FinState.mk [] [catMoradia] [] [billAluguel]).bills,
        b.categoryId = catMoradia.id) ∧
    (deleteCategory (FinState.mk [] [catMoradia] [] [billAluguel])
        catMoradia.id).categories = [] ∧
    ¬ deleteCategory (FinState.mk [] [catMoradia] [] [billAluguel]) catMoradia.id
        = FinState.mk [] [catMoradia] [] [billAluguel] := by
  refine ⟨⟨billAluguel, by simp, rfl⟩, by decide, by decide⟩

/-- Claim C3 (amended): deleting a category or account consults only
transaction references.  When some transaction references the entity the
delete is refused and the whole store is left unchanged; when no
transaction references it the delete succeeds, removes exactly that
entity, and leaves all other collections, bills included, unchanged.
References from bills never block a deletion. -/
theorem delete_guard_transactions_only (s : FinState) (cid aid : String) :
    ((∃ t ∈ s.transactions, t.categoryId = cid) → deleteCategory s cid = s) ∧
    ((∀ t ∈ s.transactions, t.categoryId ≠ cid) →
      (deleteCategory s cid).categories
          = s.categories.filter (fun c => decide (c.id ≠ cid)) ∧
      (deleteCategory s cid).transactions = s.transactions ∧
      (deleteCategory s cid).accounts = s.accounts ∧
      (deleteCategory s cid).bills = s.bills) ∧
    ((∃ t ∈ s.transactions, t.accountId = aid) → deleteAccount s aid = s) ∧
    ((∀ t ∈ s.transactions, t.accountId ≠ aid) →
      (deleteAccount s aid).accounts
          = s.accounts.filter (fun a => decide (a.id ≠ aid)) ∧
      (deleteAccount s aid).transactions = s.transactions ∧
      (deleteAccount s aid).categories = s.categories ∧
      (deleteAccount s aid).bills = s.bills) := by
  refine ⟨?_, ?_, ?_, ?_⟩
  · rintro ⟨t, ht, hc⟩
    have hmem : t ∈ s.transactions.filter (fun t => decide (t.categoryId = cid)) := by
      simp [List.mem_filter, ht, hc]
    have hlen := List.length_pos_of_mem hmem
    simp [deleteCategory, hlen]
  · intro h
    have hnil : (s.transactions.filter fun t => decide (t.categoryId = cid)) = [] := by
      simp only [List.filter_eq_nil_iff, decide_eq_true_eq]
      exact h
    refine ⟨?_, ?_, ?_, ?_⟩ <;> simp [deleteCategory, hnil]
  · rintro ⟨t, ht, hc⟩
    have hmem : t ∈ s.transactions.filter (fun t => decide (t.accountId = aid)) := by
      simp [List.mem_filter, ht, hc]
    have hlen := List.length_pos_of_mem hmem
    simp [deleteAccount, hlen]
  · intro h
    have hnil : (s.transactions.filter fun t => decide (t.accountId = aid)) = [] := by
      simp only [List.filter_eq_nil_iff, decide_eq_true_eq]
      exact h
    refine ⟨?_, ?_, ?_, ?_⟩ <;> simp [deleteAccount, hnil]

/-- A concrete transaction referencing category c1 and account a1, used in
witnesses. -/
def txAlmoco : Transaction :=
  ⟨"t1", .expense, 50, ⟨24268, 15, 0⟩, "c1", "a1", "Almoco"⟩

/-- Witness for the amended claim C3 at concrete inputs: a deletion of a
transaction-referenced category is refused, and a deletion of an
unreferenced account succeeds. -/
theorem delete_guard_transactions_only_witness :
    deleteCategory (FinState.mk [txAlmoco] [catMoradia] [] []) "c1"
        = FinState.mk [txAlmoco] [catMoradia] [] [] ∧
    (deleteAccount (FinState.mk [txAlmoco] [catMoradia] [] []) "a9").accounts
        = [] := by
  refine ⟨(delete_guard_transactions_only _ "c1" "a9").1 ⟨txAlmoco, by simp, rfl⟩, ?_⟩
  have h := (delete_guard_transactions_only
      (FinState.mk [txAlmoco] [catMoradia] [] []) "c1" "a9").2.2.2 (by decide)
  simpa using h.1

namespace BF

/-- The values carried by the bill form after zod parsing (the `schema`
object of the BillForm component).  `amountVal` is the result of
`parseFloat` on the amount string (`none` when it is NaN);
`totalInstallmentsVal` is the result of `parseInt` on the installment
count field. -/
structure FormData where
  description : String
  amountVal : Option ℚ
  due_date : String
  category_id : String
  is_paid : Bool
  is_recurring : Bool
  recurrence_type : Option String
  recurrence_end_date : Option String
  is_installment : Bool
  totalInstallmentsVal : Option ℕ
deriving DecidableEq, Repr

/-- The checks of the zod `schema` of the bill form: description at least
3 characters, amount parsing to a number greater than zero, a category
chosen.  No rule relates `is_installment` and `is_recurring`. -/
def schemaOk (d : FormData) : Bool :=
  decide (3 ≤ d.description.length) &&
  (match d.amountVal with
   | some v => decide (0 < v)
   | none => false) &&
  decide (1 ≤ d.category_id.length)

/-- The effect hook of the bill form that resets dependent fields and,
when both switches are on, turns `is_installment` off.  This is the only
mutual-exclusion mechanism in the component. -/
def effectReconcile (d : FormData) : FormData :=
  let d1 := if d.is_recurring then d
    else { d with recurrence_type := none, recurrence_end_date := none }
  let d2 := if d1.is_installment then d1
    else { d1 with totalInstallmentsVal := none }
  if d2.is_recurring && d2.is_installment then { d2 with is_installment := false }
  else d2

/-- One row of the `bills` table as built by the bill form submit handler
(the `billData` object). -/
structure BillRow where
  description : String
  amount : ℚ
  due_date : String
  category_id : String
  status : BStatus
  is_recurring : Bool
  recurrence_type : Option String
  recurrence_end_date : Option String
  is_installment : Bool
  total_installments : Option ℕ
deriving DecidableEq, Repr

/-- The `billData` record the submit handler builds from the form values
once the amount has parsed to `v`. -/
def billRowOf (d : FormData) (v : ℚ) : BillRow :=
  { description := d.description
    amount := v
    due_date := d.due_date
    category_id := d.category_id
    status := if d.is_paid then .paid else .pending
    is_recurring := d.is_recurring
    recurrence_type := if d.is_recurring then d.recurrence_type else none
    recurrence_end_date := if d.is_recurring then d.recurrence_end_date else none
    is_installment := d.is_installment
    total_installments := if d.is_installment then d.totalInstallmentsVal else none }

/-- The submit handler of the bill form: re-parse the amount, abort when
it is NaN or not positive, otherwise produce the single row that is
inserted into the `bills` table. -/
def onSubmitBill (d : FormData) : Option BillRow :=
  match d.amountVal with
  | none => none
  | some v => if v ≤ 0 then none else some (billRowOf d v)

/-- The list of bill rows a creation submit inserts. -/
def insertedBills (d : FormData) : List BillRow := (onSubmitBill d).toList

/-- The stored tables the bill form writes against. -/
structure DB where
  bills : List BillRow
  transactions : List Transaction
  accounts : List Account
deriving DecidableEq, Repr

/-- Creation through the bill form: append the built row, if any, to the
bills table.  No other table is touched. -/
def submitCreate (s : DB) (d : FormData) : DB :=
  match onSubmitBill d with
  | none => s
  | some r => { s with bills := s.bills ++ [r] }

/-- The settlement invariant of the specification, restricted to what is
observable in the stored tables: every paid bill has a transaction with
matching amount and category. -/
def paidBillInv (s : DB) : Prop :=
  ∀ b ∈ s.bills, b.status = .paid →
    ∃ t ∈ s.transactions, t.amount = b.amount ∧ t.categoryId = b.category_id

/-- A form submission that marks the bill as already paid. -/
def dPaid : FormData :=
  ⟨"Aluguel", some 150, "2024-01-10", "c6", true, false, none, none, false, none⟩

/-- A database with one account and nothing else. -/
def dbA : DB := ⟨[], [], [⟨"a1", "Banco", 2000, .bank⟩]⟩

/-- Claim C1 counterexample: the bill form accepts a creation request with
the paid switch on; the stored bill is born in the paid state with no
associated transaction and no account balance change, so a paid bill need
not have a transaction and a bill need not be created pending. -/
theorem billForm_paid_on_create_cex :
    schemaOk dPaid = true ∧
    paidBillInv dbA ∧
    ¬ paidBillInv (submitCreate dbA dPaid) ∧
    (submitCreate dbA dPaid).accounts = dbA.accounts ∧
    ∃ b ∈ (submitCreate dbA dPaid).bills, b.status = .paid := by
  refine ⟨by decide, ?_, ?_, rfl, ?_⟩
  · intro b hb
    simp [dbA] at hb
  · intro h
    have hb : billRowOf dPaid 150 ∈ (submitCreate dbA dPaid).bills := by
      simp [submitCreate, onSubmitBill, dPaid, dbA]
      decide
    obtain ⟨t, ht, -⟩ := h _ hb (by decide)
    rw [show (submitCreate dbA dPaid).transactions = [] from by decide] at ht
    simp at ht
  · refine ⟨billRowOf dPaid 150, ?_, by decide⟩
    simp [submitCreate, onSubmitBill, dPaid, dbA]
    decide

/-- Claim C1 (amended): a creation through the bill form writes exactly
one bill row and never touches the transactions or accounts tables; the
created bill is pending exactly when the request leaves the paid switch
off — when the switch is on the bill is stored already paid, with no
transaction and no balance change. -/
theorem billForm_create_frame (s : DB) (d : FormData) (v : ℚ)
    (hv : d.amountVal = some v) (h0 : 0 < v) :
    (submitCreate s d).transactions = s.transactions ∧
    (submitCreate s d).accounts = s.accounts ∧
    (submitCreate s d).bills = s.bills ++ [billRowOf d v] ∧
    ((billRowOf d v).status = .pending ↔ d.is_paid = false) := by
  have hsub : onSubmitBill d = some (billRowOf d v) := by
    simp [onSubmitBill, hv, not_le.mpr h0]
  refine ⟨?_, ?_, ?_, ?_⟩
  · simp [submitCreate, hsub]
  · simp [submitCreate, hsub]
  · simp [submitCreate, hsub]
  · cases hp : d.is_paid <;> simp [billRowOf, hp]

/-- Witness for the amended claim C1 at a concrete pending creation. -/
theorem billForm_create_frame_witness :
    dPaid.amountVal = some 150 ∧ (0 : ℚ) < 150 ∧
    (submitCreate dbA { dPaid with is_paid := false }).bills
        = [billRowOf { dPaid with is_paid := false } 150] ∧
    (billRowOf { dPaid with is_paid := false } 150).status = .pending := by
  have h := billForm_create_frame dbA { dPaid with is_paid := false } 150 rfl (by norm_num)
  exact ⟨rfl, by norm_num, by simpa [dbA] using h.2.2.1, h.2.2.2.mpr rfl⟩

/-- A form submission with both the installment and the recurring switch
set. -/
def dBoth : FormData :=
  ⟨"Conta dupla", some 50, "2024-02-01", "c1", false, true,
    some "monthly", none, true, some 4⟩

/-- Claim C2 counterexample: a request with both `is_installment` and
`is_recurring` true passes the validation schema and the built row stores
both flags true — it is not rejected with a validation error. -/
theorem schema_accepts_both_flags_cex :
    dBoth.is_installment = true ∧ dBoth.is_recurring = true ∧
    schemaOk dBoth = true ∧
    onSubmitBill dBoth = some (billRowOf dBoth 50) ∧
    (billRowOf dBoth 50).is_installment = true ∧
    (billRowOf dBoth 50).is_recurring = true := by
  refine ⟨rfl, rfl, by decide, by decide, rfl, rfl⟩

/-- Claim C2 (amended): the validation schema imposes no rule on the two
flags — its verdict is unchanged under any values of `is_installment` and
`is_recurring` — and mutual exclusion exists only as the UI side effect
that switches `is_installment` off when both flags become true. -/
theorem flag_exclusion_ui_only (d : FormData) (b1 b2 : Bool) :
    schemaOk { d with is_installment := b1, is_recurring := b2 } = schemaOk d ∧
    ((effectReconcile d).is_recurring && (effectReconcile d).is_installment)
        = false := by
  refine ⟨rfl, ?_⟩
  cases hr : d.is_recurring <;> cases hi : d.is_installment <;>
    simp [effectReconcile, hr, hi]

/-- A valid installment creation request with three installments. -/
def dInst : FormData :=
  ⟨"Notebook", some 100, "2024-01-05", "c1", false, false, none, none,
    true, some 3⟩

/-- Claim C4 counterexample: a valid installment request with
`totalInstallments = 3` leads to exactly one inserted bill row, not three
sibling rows, so materialization of the installment chain does not
happen. -/
theorem installment_single_row_cex :
    schemaOk dInst = true ∧
    dInst.is_installment = true ∧
    dInst.totalInstallmentsVal = some 3 ∧
    (insertedBills dInst).length = 1 ∧
    ¬ (insertedBills dInst).length = 3 := by
  refine ⟨by decide, rfl, rfl, by decide, by decide⟩

/-- Claim C4 (amended): a valid installment request stores exactly one
bill row; that row records the requested `total_installments` and the
first due date, and no sibling rows for installments 2..N are created. -/
theorem installment_creates_single_bill (d : FormData) (v : ℚ) (n : ℕ)
    (hv : d.amountVal = some v) (h0 : 0 < v)
    (hi : d.is_installment = true) (hn : d.totalInstallmentsVal = some n) :
    insertedBills d = [billRowOf d v] ∧
    (billRowOf d v).total_installments = some n ∧
    (billRowOf d v).is_installment = true ∧
    (billRowOf d v).due_date = d.due_date := by
  have hsub : onSubmitBill d = some (billRowOf d v) := by
    simp [onSubmitBill, hv, not_le.mpr h0]
  refine ⟨by simp [insertedBills, hsub], ?_, ?_, rfl⟩
  · simp [billRowOf, hi, hn]
  · simp [billRowOf, hi]

/-- Witness for the amended claim C4 at the concrete three-installment
request. -/
theorem installment_creates_single_bill_witness :
    dInst.amountVal = some 100 ∧ (0 : ℚ) < 100 ∧
    dInst.is_installment = true ∧ dInst.totalInstallmentsVal = some 3 ∧
    insertedBills dInst = [billRowOf dInst 100] ∧
    (billRowOf dInst 100).total_installments = some 3 := by
  have h := installment_creates_single_bill dInst 100 3 rfl (by norm_num) rfl rfl
  exact ⟨rfl, by norm_num, rfl, rfl, h.1, h.2.1⟩

end BF

/-- The tabs of the bills page. -/
inductive Tab where
  | all
  | overdue
  | today
  | upcoming
deriving DecidableEq, Repr

/-- The filter predicate of the bills page (`filteredBills`): a bill shows
under a tab only when pending, and then according to the tab: overdue when
the due date is before now and not on the same calendar day, today when on
the same calendar day, upcoming when now is before the due date. -/
def tabPred (tab : Tab) (now : JDate) (b : Bill) : Bool :=
  decide (b.status = .pending) &&
    (match tab with
     | .all => true
     | .overdue => jlt b.dueDate now && ! sameDay b.dueDate now
     | .today => sameDay b.dueDate now
     | .upcoming => jlt now b.dueDate)

/-- The `filteredBills` computation of the bills page. -/
def filteredBills (bills : List Bill) (now : JDate) (tab : Tab) : List Bill :=
  bills.filter (tabPred tab now)

/-- Exactly one of three propositions holds. -/
def exactlyOne (p q r : Prop) : Prop :=
  (p ∧ ¬ q ∧ ¬ r) ∨ (¬ p ∧ q ∧ ¬ r) ∨ (¬ p ∧ ¬ q ∧ r)

/-- Claim C6: due-date bucketing classifies only pending bills — a bill
that is not pending appears in no bucket — and each pending bill whose due
date is a calendar date (no time of day) falls in exactly one bucket:
overdue iff due before now and not the same calendar day, today iff the
same calendar day, upcoming iff now is before the due date. -/
theorem dueBucket_partition (bills : List Bill) (now : JDate) (b : Bill)
    (hb : b ∈ bills) :
    (b.status ≠ .pending →
      b ∉ filteredBills bills now .overdue ∧
      b ∉ filteredBills bills now Tab.today ∧
      b ∉ filteredBills bills now .upcoming) ∧
    (b.status = .pending → b.dueDate.t = 0 →
      (b ∈ filteredBills bills now .overdue
          ↔ (jlt b.dueDate now = true ∧ sameDay b.dueDate now = false)) ∧
      (b ∈ filteredBills bills now Tab.today ↔ sameDay b.dueDate now = true) ∧
      (b ∈ filteredBills bills now .upcoming ↔ jlt now b.dueDate = true) ∧
      exactlyOne (b ∈ filteredBills bills now .overdue)
        (b ∈ filteredBills bills now Tab.today)
        (b ∈ filteredBills bills now .upcoming)) := by
  constructor
  · intro hs
    refine ⟨?_, ?_, ?_⟩ <;>
      simp [filteredBills, List.mem_filter, tabPred, hs]
  · intro hs ht
    have ho : b ∈ filteredBills bills now .overdue
        ↔ (jlt b.dueDate now = true ∧ sameDay b.dueDate now = false) := by
      simp [filteredBills, List.mem_filter, tabPred, hs, hb]
    have hd : b ∈ filteredBills bills now Tab.today
        ↔ sameDay b.dueDate now = true := by
      simp [filteredBills, List.mem_filter, tabPred, hs, hb]
    have hu : b ∈ filteredBills bills now .upcoming
        ↔ jlt now b.dueDate = true := by
      simp [filteredBills, List.mem_filter, tabPred, hs, hb]
    refine ⟨ho, hd, hu, ?_⟩
    rw [exactlyOne, ho, hd, hu]
    simp only [jlt, sameDay, decide_eq_true_eq, decide_eq_false_iff_not]
    rw [ht]
    omega

/-- Witness for claim C6 at a concrete pending bill due on the same
calendar day as now: it lands in the today bucket. -/
theorem dueBucket_partition_witness :
    billAluguel ∈ [billAluguel] ∧ billAluguel.status = .pending ∧
    billAluguel.dueDate.t = 0 ∧
    billAluguel ∈ filteredBills [billAluguel] ⟨24288, 10, 500⟩ Tab.today := by
  refine ⟨by simp, rfl, rfl, ?_⟩
  exact ((dueBucket_partition [billAluguel] ⟨24288, 10, 500⟩ billAluguel
    (by simp)).2 rfl rfl).2.1.mpr (by decide)

/-- The dashboard expense total: sum the amounts of expense transactions
(the income total is analogous). -/
def totalExpense (ts : List Transaction) : ℚ :=
  (ts.filter fun t => decide (t.type = .expense)).foldl
    (fun acc t => acc + t.amount) 0

/-- Update of a JS object used as a string-keyed accumulator:
`acc[k] = (acc[k] || 0) + v`.  An existing key keeps its position, a new
key is appended. -/
def bumpAssoc (m : List (String × ℚ)) (k : String) (v : ℚ) :
    List (String × ℚ) :=
  match m with
  | [] => [(k, v)]
  | e :: rest => if e.1 = k then (e.1, e.2 + v) :: rest
    else e :: bumpAssoc rest k v

/-- One step of the dashboard category reduce: resolve the transaction's
category and, when found, add the amount under the category name; an
unresolvable category id contributes nothing. -/
def catStep (cs : List Category) (acc : List (String × ℚ)) (t : Transaction) :
    List (String × ℚ) :=
  match cs.find? (fun c => decide (c.id = t.categoryId)) with
  | some c => bumpAssoc acc c.name t.amount
  | none => acc

/-- The dashboard `expensesByCategory` computation: reduce the expense
transactions into a name-keyed accumulator. -/
def expensesByCategory (cs : List Category) (ts : List Transaction) :
    List (String × ℚ) :=
  (ts.filter fun t => decide (t.type = .expense)).foldl (catStep cs) []

/-- Lookup in the string-keyed accumulator. -/
def lookupAmt (m : List (String × ℚ)) (k : String) : Option ℚ :=
  (m.find? fun e => decide (e.1 = k)).map (fun e => e.2)

/-- The name, if any, under which the dashboard books a transaction. -/
def contribKey (cs : List Category) (t : Transaction) : Option String :=
  (cs.find? fun c => decide (c.id = t.categoryId)).map (fun c => c.name)

/-- Amounts booked under a given name by a run over the given
transactions. -/
def contribAmts (cs : List Category) (k : String) (ts : List Transaction) :
    List ℚ :=
  (ts.filter fun t => decide (contribKey cs t = some k)).map (fun t => t.amount)

theorem lookupAmt_bump_self (m : List (String × ℚ)) (k : String) (v : ℚ) :
    lookupAmt (bumpAssoc m k v) k = some ((lookupAmt m k).getD 0 + v) := by
  induction m with
  | nil => simp [bumpAssoc, lookupAmt]
  | cons e rest ih =>
    by_cases h : e.1 = k
    · simp [bumpAssoc, h, lookupAmt, List.find?_cons_of_pos]
    · simp only [bumpAssoc, if_neg h]
      rw [lookupAmt, List.find?_cons_of_neg _ (by simp [h]),
        lookupAmt, List.find?_cons_of_neg _ (by simp [h])] at *
      exact ih

theorem lookupAmt_bump_other (m : List (String × ℚ)) (k k2 : String) (v : ℚ)
    (h : k2 ≠ k) :
    lookupAmt (bumpAssoc m k v) k2 = lookupAmt m k2 := by
  induction m with
  | nil => simp [bumpAssoc, lookupAmt, Ne.symm h]
  | cons e rest ih =>
    by_cases he : e.1 = k
    · rw [bumpAssoc, if_pos he, lookupAmt,
        List.find?_cons_of_neg _ (by simp [he, Ne.symm h]),
        lookupAmt, List.find?_cons_of_neg _ (by simp [he, Ne.symm h])]
    · rw [bumpAssoc, if_neg he]
      by_cases he2 : e.1 = k2
      · rw [lookupAmt, List.find?_cons_of_pos _ (by simp [he2]),
          lookupAmt, List.find?_cons_of_pos _ (by simp [he2])]
      · rw [lookupAmt, List.find?_cons_of_neg _ (by simp [he2]),
          lookupAmt, List.find?_cons_of_neg _ (by simp [he2])]
        exact ih

theorem contribAmts_cons (cs : List Category) (k : String) (t : Transaction)
    (ts : List Transaction) :
    contribAmts cs k (t :: ts) =
      if contribKey cs t = some k then t.amount :: contribAmts cs k ts
      else contribAmts cs k ts := by
  by_cases h : contribKey cs t = some k <;>
    simp [contribAmts, List.filter_cons, h]

theorem foldl_catStep_lookup (cs : List Category) (k : String) :
    ∀ (ts : List Transaction) (acc : List (String × ℚ)),
      lookupAmt (ts.foldl (catStep cs) acc) k =
        if contribAmts cs k ts = [] ∧ lookupAmt acc k = none then none
        else some ((lookupAmt acc k).getD 0 + (contribAmts cs k ts).sum) := by
  intro ts
  induction ts with
  | nil =>
    intro acc
    cases h : lookupAmt acc k <;> simp [contribAmts, h]
  | cons t ts ih =>
    intro acc
    rw [List.foldl_cons]
    cases hc : cs.find? (fun c => decide (c.id = t.categoryId)) with
    | none =>
      have hk : ¬ contribKey cs t = some k := by simp [contribKey, hc]
      simp only [catStep, hc]
      rw [ih acc, contribAmts_cons, if_neg hk]
    | some c =>
      by_cases hk : c.name = k
      · have hck : contribKey cs t = some k := by simp [contribKey, hc, hk]
        simp only [catStep, hc]
        rw [hk, ih (bumpAssoc acc k t.amount),
          contribAmts_cons, if_pos hck]
        rw [lookupAmt_bump_self]
        simp [add_assoc]
      · have hck : ¬ contribKey cs t = some k := by
          simp [contribKey, hc, hk]
        simp only [catStep, hc]
        rw [ih (bumpAssoc acc c.name t.amount),
          contribAmts_cons, if_neg hck,
          lookupAmt_bump_other _ _ _ _ (fun h => hk h.symm)]

theorem find?_id_of_nodup (cs : List Category)
    (hids : (cs.map fun c => c.id).Nodup) (c : Category) (hc : c ∈ cs) :
    (cs.find? fun x => decide (x.id = c.id)) = some c := by
  induction cs with
  | nil => simp at hc
  | cons a rest ih =>
    rw [List.map_cons, List.nodup_cons] at hids
    by_cases ha : a.id = c.id
    · have hac : a = c := by
        rcases List.mem_cons.mp hc with h | h
        · exact h.symm
        · exact absurd (ha ▸ List.mem_map_of_mem (fun c => c.id) h) hids.1
      rw [List.find?_cons_of_pos _ (by simp [ha]), hac]
    · have hcrest : c ∈ rest := by
        rcases List.mem_cons.mp hc with h | h
        · exact absurd (h ▸ rfl) ha
        · exact h
      rw [List.find?_cons_of_neg _ (by simp [ha])]
      exact ih hids.2 hcrest

theorem contribKey_eq_iff (cs : List Category)
    (hids : (cs.map fun c => c.id).Nodup)
    (hnames : (cs.map fun c => c.name).Nodup)
    (c : Category) (hc : c ∈ cs) (t : Transaction) :
    contribKey cs t = some c.name ↔ t.categoryId = c.id := by
  constructor
  · intro h
    rw [contribKey] at h
    cases hf : cs.find? (fun x => decide (x.id = t.categoryId)) with
    | none => rw [hf] at h; simp at h
    | some c2 =>
      rw [hf] at h
      simp only [Option.map_some', Option.some.injEq] at h
      have hc2 : c2 ∈ cs := List.mem_of_find?_eq_some hf
      have hp := List.find?_some hf
      have hcc : c2 = c := List.inj_on_of_nodup_map hnames hc2 hc h
      rw [hcc] at hp
      simp only [decide_eq_true_eq] at hp
      exact hp.symm
  · intro h
    rw [contribKey, h, find?_id_of_nodup cs hids c hc]
    rfl

theorem mem_bumpAssoc_key (m : List (String × ℚ)) (k : String) (v : ℚ) :
    ∀ e ∈ bumpAssoc m k v, e.1 = k ∨ ∃ e2 ∈ m, e.1 = e2.1 := by
  induction m with
  | nil => intro e he; simp [bumpAssoc] at he; simp [he]
  | cons a rest ih =>
    intro e he
    by_cases ha : a.1 = k
    · rw [bumpAssoc, if_pos ha] at he
      rcases List.mem_cons.mp he with h | h
      · exact Or.inl (h ▸ ha)
      · exact Or.inr ⟨e, List.mem_cons_of_mem a h, rfl⟩
    · rw [bumpAssoc, if_neg ha] at he
      rcases List.mem_cons.mp he with h | h
      · exact Or.inr ⟨a, List.mem_cons_self a rest, h ▸ rfl⟩
      · rcases ih e h with h2 | ⟨e2, he2, hk2⟩
        · exact Or.inl h2
        · exact Or.inr ⟨e2, List.mem_cons_of_mem a he2, hk2⟩

theorem foldl_catStep_key_origin (cs : List Category) :
    ∀ (ts : List Transaction) (acc : List (String × ℚ)) (e : String × ℚ),
      e ∈ ts.foldl (catStep cs) acc →
        (∃ e2 ∈ acc, e.1 = e2.1) ∨ ∃ t ∈ ts, contribKey cs t = some e.1 := by
  intro ts
  induction ts with
  | nil => intro acc e he; exact Or.inl ⟨e, he, rfl⟩
  | cons t ts ih =>
    intro acc e he
    rw [List.foldl_cons] at he
    rcases ih (catStep cs acc t) e he with ⟨e2, he2, hk2⟩ | ⟨t2, ht2, hk2⟩
    · rw [catStep] at he2
      cases hf : cs.find? (fun c => decide (c.id = t.categoryId)) with
      | none => rw [hf] at he2; exact Or.inl ⟨e2, he2, hk2⟩
      | some c =>
        rw [hf] at he2
        rcases mem_bumpAssoc_key acc c.name t.amount e2 he2 with h | ⟨e3, he3, hk3⟩
        · refine Or.inr ⟨t, List.mem_cons_self t ts, ?_⟩
          rw [contribKey, hf, Option.map_some', hk2, h]
        · exact Or.inl ⟨e3, he3, hk2.trans hk3⟩
    · exact Or.inr ⟨t2, List.mem_cons_of_mem t ht2, hk2⟩

/-- Claim C7: the dashboard category breakdown maps each category name to
the sum of the amounts of the expense transactions referencing that
category; it has an entry exactly for the categories with at least one
matching expense transaction; income transactions contribute nothing.
Category ids and names are assumed unambiguous, as in the stored data. -/
theorem byCategory_characterization (cs : List Category) (ts : List Transaction)
    (hids : (cs.map fun c => c.id).Nodup)
    (hnames : (cs.map fun c => c.name).Nodup) :
    (∀ c ∈ cs,
      ((∃ t ∈ ts, t.type = .expense ∧ t.categoryId = c.id) →
        lookupAmt (expensesByCategory cs ts) c.name =
          some (((ts.filter fun t =>
              decide (t.type = .expense ∧ t.categoryId = c.id)).map
            (fun t => t.amount)).sum)) ∧
      ((∀ t ∈ ts, t.type = .expense → t.categoryId ≠ c.id) →
        lookupAmt (expensesByCategory cs ts) c.name = none)) ∧
    (∀ e ∈ expensesByCategory cs ts,
      ∃ c ∈ cs, e.1 = c.name ∧
        ∃ t ∈ ts, t.type = .expense ∧ t.categoryId = c.id) ∧
    (∀ extra : List Transaction, (∀ t ∈ extra, t.type = .income) →
      expensesByCategory cs (ts ++ extra) = expensesByCategory cs ts) := by
  refine ⟨?_, ?_, ?_⟩
  · intro c hc
    have hfilt : (ts.filter fun t => decide (t.type = .expense)).filter
          (fun t => decide (contribKey cs t = some c.name))
        = ts.filter (fun t => decide (t.type = .expense ∧ t.categoryId = c.id)) := by
      rw [List.filter_filter]
      apply List.filter_congr
      intro t _
      by_cases hexp : t.type = .expense
      · simp [hexp, contribKey_eq_iff cs hids hnames c hc t]
      · simp [hexp]
    have hca : contribAmts cs c.name (ts.filter fun t => decide (t.type = .expense))
        = ((ts.filter fun t =>
            decide (t.type = .expense ∧ t.categoryId = c.id)).map
          (fun t => t.amount)) := by
      rw [contribAmts, hfilt]
    have hmain := foldl_catStep_lookup cs c.name
      (ts.filter fun t => decide (t.type = .expense)) []
    rw [hca] at hmain
    constructor
    · rintro ⟨t, ht, hexp, hcat⟩
      have htf : t ∈ ts.filter (fun t =>
          decide (t.type = .expense ∧ t.categoryId = c.id)) := by
        simp [List.mem_filter, ht, hexp, hcat]
      have hne : ¬ ((ts.filter fun t =>
          decide (t.type = .expense ∧ t.categoryId = c.id)).map
            (fun t => t.amount) = [] ∧ lookupAmt [] c.name = none) := by
        rintro ⟨h1, -⟩
        rw [List.map_eq_nil_iff] at h1
        rw [h1] at htf
        simp at htf
      rw [expensesByCategory, hmain, if_neg hne]
      simp [lookupAmt]
    · intro h
      have h1 : ts.filter (fun t =>
          decide (t.type = .expense ∧ t.categoryId = c.id)) = [] := by
        rw [List.filter_eq_nil_iff]
        intro t ht
        simp only [decide_eq_true_eq, not_and]
        intro hexp
        exact h t ht hexp
      rw [expensesByCategory, hmain, if_pos ⟨by rw [h1]; rfl, by simp [lookupAmt]⟩]
  · intro e he
    rw [expensesByCategory] at he
    rcases foldl_catStep_key_origin cs _ [] e he with ⟨e2, he2, -⟩ | ⟨t, ht, hk⟩
    · simp at he2
    · rw [contribKey] at hk
      cases hf : cs.find? (fun x => decide (x.id = t.categoryId)) with
      | none => rw [hf] at hk; simp at hk
      | some c =>
        rw [hf] at hk
        simp only [Option.map_some', Option.some.injEq] at hk
        have hcm : c ∈ cs := List.mem_of_find?_eq_some hf
        have hp := List.find?_some hf
        simp only [decide_eq_true_eq] at hp
        have htm := List.mem_filter.mp ht
        refine ⟨c, hcm, hk.symm, t, htm.1, ?_, hp.symm⟩
        simpa using htm.2
  · intro extra hinc
    rw [expensesByCategory, expensesByCategory, List.filter_append]
    have hnil : extra.filter (fun t => decide (t.type = .expense)) = [] := by
      rw [List.filter_eq_nil_iff]
      intro t ht
      simp [hinc t ht]
    rw [hnil, List.append_nil]

/-- A concrete expense category used in the dashboard witnesses. -/
def catA : Category := ⟨"ca", "catA", .expense, "A", none⟩

/-- A concrete income category used in the dashboard witnesses. -/
def catB : Category := ⟨"cb", "catB", .income, "B", none⟩

/-- The three transactions of the specification example for the category
breakdown. -/
def txs7 : List Transaction :=
  [⟨"t1", .expense, 100, ⟨24288, 5, 0⟩, "ca", "a1", "x"⟩,
   ⟨"t2", .expense, 50, ⟨24288, 6, 0⟩, "ca", "a1", "y"⟩,
   ⟨"t3", .income, 500, ⟨24288, 7, 0⟩, "cb", "a1", "z"⟩]

/-- Witness for claim C7 at the specification example: catA sums to 150,
income is excluded so catB has no entry. -/
theorem byCategory_characterization_witness :
    (([catA, catB].map fun c => c.id).Nodup) ∧
    (([catA, catB].map fun c => c.name).Nodup) ∧
    lookupAmt (expensesByCategory [catA, catB] txs7) "catA" = some 150 ∧
    lookupAmt (expensesByCategory [catA, catB] txs7) "catB" = none := by
  have h := byCategory_characterization [catA, catB] txs7 (by decide) (by decide)
  have hA := (h.1 catA (by simp)).1
    ⟨⟨"t1", .expense, 100, ⟨24288, 5, 0⟩, "ca", "a1", "x"⟩, by simp [txs7], rfl, rfl⟩
  have hB := (h.1 catB (by simp)).2 (by decide)
  have hA2 : lookupAmt (expensesByCategory [catA, catB] txs7) catA.name
      = some 150 := by
    rw [hA]
    norm_num [txs7, catA, List.filter_cons, List.filter_nil]
    rw [if_neg (by simp)]
    norm_num
  exact ⟨by decide, by decide, hA2, hB⟩

theorem sumVals_bump (m : List (String × ℚ)) (k : String) (v : ℚ) :
    ((bumpAssoc m k v).map (fun e => e.2)).sum
      = (m.map (fun e => e.2)).sum + v := by
  induction m with
  | nil => simp [bumpAssoc]
  | cons a rest ih =>
    by_cases h : a.1 = k
    · simp [bumpAssoc, h]
      ring
    · simp [bumpAssoc, h, ih]
      ring

theorem foldl_catStep_sumVals (cs : List Category) :
    ∀ (ts : List Transaction) (acc : List (String × ℚ)),
      ((ts.foldl (catStep cs) acc).map (fun e => e.2)).sum
        = (acc.map (fun e => e.2)).sum +
          ((ts.filter fun t =>
              (cs.find? fun c => decide (c.id = t.categoryId)).isSome).map
            (fun t => t.amount)).sum := by
  intro ts
  induction ts with
  | nil => intro acc; simp
  | cons t ts ih =>
    intro acc
    rw [List.foldl_cons]
    cases hf : cs.find? (fun c => decide (c.id = t.categoryId)) with
    | none =>
      simp only [catStep, hf]
      rw [ih acc, List.filter_cons]
      simp [hf]
    | some c =>
      simp only [catStep, hf]
      rw [ih (bumpAssoc acc c.name t.amount), sumVals_bump, List.filter_cons]
      simp [hf]
      ring

theorem foldl_add_amount :
    ∀ (l : List Transaction) (a : ℚ),
      l.foldl (fun acc t => acc + t.amount) a
        = a + (l.map (fun t => t.amount)).sum := by
  intro l
  induction l with
  | nil => intro a; simp
  | cons t ts ih =>
    intro a
    rw [List.foldl_cons, ih]
    simp
    ring

theorem sum_filter_split (q : Transaction → Bool) :
    ∀ l : List Transaction,
      ((l.filter fun t => q t).map (fun t => t.amount)).sum +
      ((l.filter fun t => ! q t).map (fun t => t.amount)).sum
        = (l.map (fun t => t.amount)).sum := by
  intro l
  induction l with
  | nil => simp
  | cons t ts ih =>
    cases hq : q t
    · simp [List.filter_cons, hq]
      rw [← ih]
      ring
    · simp [List.filter_cons, hq]
      rw [← ih]
      ring

theorem sum_amounts_nonneg (l : List Transaction)
    (h : ∀ t ∈ l, 0 < t.amount) :
    0 ≤ (l.map (fun t => t.amount)).sum := by
  induction l with
  | nil => simp
  | cons t ts ih =>
    simp only [List.map_cons, List.sum_cons]
    have h1 := h t (List.mem_cons_self t ts)
    have h2 := ih (fun x hx => h x (List.mem_cons_of_mem t hx))
    linarith

theorem sum_amounts_pos_zero_iff (l : List Transaction)
    (h : ∀ t ∈ l, 0 < t.amount) :
    (l.map (fun t => t.amount)).sum = 0 ↔ l = [] := by
  cases l with
  | nil => simp
  | cons t ts =>
    simp only [List.map_cons, List.sum_cons, List.cons_ne_nil, iff_false]
    have h1 := h t (List.mem_cons_self t ts)
    have h2 := sum_amounts_nonneg ts (fun x hx => h x (List.mem_cons_of_mem t hx))
    intro h0
    linarith

/-- Claim C9: the sum of the dashboard category breakdown values is at
most the dashboard expense total, with equality exactly when every expense
transaction's category id resolves to a stored category; an expense
transaction with an unresolvable category id is counted in the total but
silently excluded from the breakdown.  Amounts are positive, as the entry
forms enforce. -/
theorem byCategory_le_totalExpense (cs : List Category) (ts : List Transaction)
    (hpos : ∀ t ∈ ts, 0 < t.amount) :
    ((expensesByCategory cs ts).map (fun e => e.2)).sum ≤ totalExpense ts ∧
    (((expensesByCategory cs ts).map (fun e => e.2)).sum = totalExpense ts ↔
      ∀ t ∈ ts, t.type = .expense →
        (cs.find? fun c => decide (c.id = t.categoryId)).isSome = true) := by
  have hE : ∀ t ∈ ts.filter (fun t => decide (t.type = .expense)), 0 < t.amount :=
    fun t ht => hpos t (List.mem_filter.mp ht).1
  have hby : ((expensesByCategory cs ts).map (fun e => e.2)).sum
      = (((ts.filter fun t => decide (t.type = .expense)).filter fun t =>
          (cs.find? fun c => decide (c.id = t.categoryId)).isSome).map
        (fun t => t.amount)).sum := by
    rw [expensesByCategory, foldl_catStep_sumVals]
    simp
  have htot : totalExpense ts
      = ((ts.filter fun t => decide (t.type = .expense)).map
          (fun t => t.amount)).sum := by
    rw [totalExpense, foldl_add_amount]
    simp
  have hsplit := sum_filter_split
    (fun t => (cs.find? fun c => decide (c.id = t.categoryId)).isSome)
    (ts.filter fun t => decide (t.type = .expense))
  have hunres : ∀ t ∈ (ts.filter fun t => decide (t.type = .expense)).filter
      (fun t => ! (cs.find? fun c => decide (c.id = t.categoryId)).isSome),
      0 < t.amount := fun t ht => hE t (List.mem_filter.mp ht).1
  have hnn := sum_amounts_nonneg _ hunres
  constructor
  · rw [hby, htot]
    linarith
  · rw [hby, htot]
    constructor
    · intro heq
      have hz : (((ts.filter fun t => decide (t.type = .expense)).filter
          (fun t => ! (cs.find? fun c => decide (c.id = t.categoryId)).isSome)).map
            (fun t => t.amount)).sum = 0 := by linarith
      have hnil := (sum_amounts_pos_zero_iff _ hunres).mp hz
      rw [List.filter_eq_nil_iff] at hnil
      intro t ht hexp
      have htE : t ∈ ts.filter (fun t => decide (t.type = .expense)) := by
        simp [List.mem_filter, ht, hexp]
      have := hnil t htE
      simpa using this
    · intro hall
      have hnil : (ts.filter fun t => decide (t.type = .expense)).filter
          (fun t => ! (cs.find? fun c => decide (c.id = t.categoryId)).isSome)
            = [] := by
        rw [List.filter_eq_nil_iff]
        intro t ht
        have htm := List.mem_filter.mp ht
        have hexp : t.type = .expense := by simpa using htm.2
        simp [hall t htm.1 hexp]
      rw [← hsplit, hnil]
      simp

/-- Witness for claim C9 at the specification example: both sums are 150
and every expense transaction resolves. -/
theorem byCategory_le_totalExpense_witness :
    (∀ t ∈ txs7, 0 < t.amount) ∧
    ((expensesByCategory [catA, catB] txs7).map (fun e => e.2)).sum
      = totalExpense txs7 := by
  refine ⟨by decide, ?_⟩
  refine (byCategory_le_totalExpense [catA, catB] txs7 (by decide)).2.mpr ?_
  decide

/-- Non-strict order on time points (JS `>=` written with the arguments
swapped). -/
def jle (a b : JDate) : Bool := ! jlt b a

/-- The lower bound of the dashboard monthly chart: take now, move the
month index back by five (JS `setMonth` normalizes an overflowing
day-of-month into the following month), then set the day to 1.  The time
of day of now is kept. -/
def windowStart (now : JDate) : JDate :=
  if now.d ≤ dim (now.m - 5) then ⟨now.m - 5, 1, now.t⟩
  else ⟨now.m - 5 + 1, 1, now.t⟩

/-- The grouping key of the monthly chart: the month name produced by
formatting with MMM, i.e. the month-of-year alone, without the year. -/
def monthKey (x : JDate) : ℤ := x.m.emod 12

/-- Update of the JS month accumulator: create the entry with zero sums if
absent, then add the amount to the income or the expense sum. -/
def gBump (acc : List (ℤ × ℚ × ℚ)) (k : ℤ) (ty : TType) (v : ℚ) :
    List (ℤ × ℚ × ℚ) :=
  match acc with
  | [] => [(k, if ty = .income then (v, 0) else (0, v))]
  | e :: rest =>
    if e.1 = k then
      (k, if ty = .income then (e.2.1 + v, e.2.2) else (e.2.1, e.2.2 + v)) :: rest
    else e :: gBump rest k ty v

/-- One step of the monthly reduce. -/
def monthlyStep (acc : List (ℤ × ℚ × ℚ)) (t : Transaction) :
    List (ℤ × ℚ × ℚ) :=
  gBump acc (monthKey t.date) t.type t.amount

/-- The dashboard monthly chart data: keep the transactions dated on or
after the window start — there is no upper bound — and group them by month
name, in first-occurrence order, with income and expense sums. -/
def monthlySeries (now : JDate) (ts : List Transaction) : List (ℤ × ℚ × ℚ) :=
  (ts.filter fun t => jle (windowStart now) t.date).foldl monthlyStep []

/-- A transaction dated seven months after the example now, used for the
C8 counterexample. -/
def futureTx : Transaction :=
  ⟨"tf", .expense, 100, ⟨24295, 5, 0⟩, "c1", "a1", "Futuro"⟩

/-- Claim C8 counterexample: a transaction dated after the current month —
outside the trailing six-month window ending at the current month —
contributes an entry to the monthly series, because the source filter has
only a lower bound. -/
theorem monthlySeries_future_cex :
    (⟨24288, 15, 0⟩ : JDate).m < futureTx.date.m ∧
    monthlySeries ⟨24288, 15, 0⟩ [futureTx] = [(7, 0, 100)] := by
  exact ⟨by decide, by decide⟩

/-- Lookup in the month-keyed accumulator: the income and expense sums
stored under a month key, if the entry exists. -/
def lookupMonth (m : List (ℤ × ℚ × ℚ)) (k : ℤ) : Option (ℚ × ℚ) :=
  (m.find? fun e => decide (e.1 = k)).map (fun e => e.2)

/-- The amounts of the income transactions of a given month key. -/
def monthIncomes (k : ℤ) (ts : List Transaction) : List ℚ :=
  (ts.filter fun t => decide (monthKey t.date = k ∧ t.type = .income)).map
    (fun t => t.amount)

/-- The amounts of the expense transactions of a given month key. -/
def monthExpenses (k : ℤ) (ts : List Transaction) : List ℚ :=
  (ts.filter fun t => decide (monthKey t.date = k ∧ t.type = .expense)).map
    (fun t => t.amount)

theorem lookupMonth_gBump_self (acc : List (ℤ × ℚ × ℚ)) (k : ℤ) (ty : TType)
    (v : ℚ) :
    lookupMonth (gBump acc k ty v) k =
      some (if ty = .income
        then (((lookupMonth acc k).getD (0, 0)).1 + v,
          ((lookupMonth acc k).getD (0, 0)).2)
        else (((lookupMonth acc k).getD (0, 0)).1,
          ((lookupMonth acc k).getD (0, 0)).2 + v)) := by
  induction acc with
  | nil => cases ty <;> simp [gBump, lookupMonth]
  | cons e rest ih =>
    by_cases h : e.1 = k
    · rw [gBump, if_pos h]
      rw [lookupMonth, List.find?_cons_of_pos _ (by simp),
        lookupMonth, List.find?_cons_of_pos _ (by simp [h])]
      simp
    · rw [gBump, if_neg h]
      rw [lookupMonth, List.find?_cons_of_neg _ (by simp [h]),
        lookupMonth, List.find?_cons_of_neg _ (by simp [h])]
      exact ih

theorem lookupMonth_gBump_other (acc : List (ℤ × ℚ × ℚ)) (k k2 : ℤ)
    (ty : TType) (v : ℚ) (h : k2 ≠ k) :
    lookupMonth (gBump acc k ty v) k2 = lookupMonth acc k2 := by
  induction acc with
  | nil => simp [gBump, lookupMonth, Ne.symm h]
  | cons e rest ih =>
    by_cases he : e.1 = k
    · rw [gBump, if_pos he, lookupMonth,
        List.find?_cons_of_neg _ (by simp [Ne.symm h]),
        lookupMonth, List.find?_cons_of_neg _ (by simp [he, Ne.symm h])]
    · rw [gBump, if_neg he]
      by_cases he2 : e.1 = k2
      · rw [lookupMonth, List.find?_cons_of_pos _ (by simp [he2]),
          lookupMonth, List.find?_cons_of_pos _ (by simp [he2])]
      · rw [lookupMonth, List.find?_cons_of_neg _ (by simp [he2]),
          lookupMonth, List.find?_cons_of_neg _ (by simp [he2])]
        exact ih

theorem foldl_monthlyStep_lookup (k : ℤ) :
    ∀ (ts : List Transaction) (acc : List (ℤ × ℚ × ℚ)),
      lookupMonth (ts.foldl monthlyStep acc) k =
        if (ts.filter fun t => decide (monthKey t.date = k)) = []
            ∧ lookupMonth acc k = none then none
        else some (((lookupMonth acc k).getD (0, 0)).1 + (monthIncomes k ts).sum,
          ((lookupMonth acc k).getD (0, 0)).2 + (monthExpenses k ts).sum) := by
  intro ts
  induction ts with
  | nil =>
    intro acc
    cases h : lookupMonth acc k with
    | none => simp [monthIncomes, monthExpenses, h]
    | some p => simp [monthIncomes, monthExpenses, h]
  | cons t ts ih =>
    intro acc
    rw [List.foldl_cons]
    by_cases hk : monthKey t.date = k
    · have hstep : monthlyStep acc t = gBump acc k t.type t.amount := by
        rw [monthlyStep, hk]
      rw [hstep, ih (gBump acc k t.type t.amount)]
      have hfc : (t :: ts).filter (fun t => decide (monthKey t.date = k))
          = t :: ts.filter (fun t => decide (monthKey t.date = k)) := by
        simp [List.filter_cons, hk]
      cases hty : t.type with
      | income =>
        have hI : monthIncomes k (t :: ts) = t.amount :: monthIncomes k ts := by
          simp [monthIncomes, List.filter_cons, hk, hty]
        have hE : monthExpenses k (t :: ts) = monthExpenses k ts := by
          simp [monthExpenses, List.filter_cons, hk, hty]
        have hself : lookupMonth (gBump acc k TType.income t.amount) k =
            some (((lookupMonth acc k).getD (0, 0)).1 + t.amount,
              ((lookupMonth acc k).getD (0, 0)).2) := by
          rw [lookupMonth_gBump_self]
          simp
        rw [hself]
        rw [if_neg (by simp)]
        rw [hfc, hI, hE]
        rw [if_neg (by simp)]
        simp [List.sum_cons, add_assoc]
      | expense =>
        have hI : monthIncomes k (t :: ts) = monthIncomes k ts := by
          simp [monthIncomes, List.filter_cons, hk, hty]
        have hE : monthExpenses k (t :: ts) = t.amount :: monthExpenses k ts := by
          simp [monthExpenses, List.filter_cons, hk, hty]
        have hself : lookupMonth (gBump acc k TType.expense t.amount) k =
            some (((lookupMonth acc k).getD (0, 0)).1,
              ((lookupMonth acc k).getD (0, 0)).2 + t.amount) := by
          rw [lookupMonth_gBump_self]
          simp
        rw [hself]
        rw [if_neg (by simp)]
        rw [hfc, hI, hE]
        rw [if_neg (by simp)]
        simp [List.sum_cons, add_assoc]
    · have hlk : lookupMonth (monthlyStep acc t) k = lookupMonth acc k :=
        lookupMonth_gBump_other acc (monthKey t.date) k t.type t.amount
          (fun h => hk h.symm)
      have hfc : (t :: ts).filter (fun t => decide (monthKey t.date = k))
          = ts.filter (fun t => decide (monthKey t.date = k)) := by
        simp [List.filter_cons, hk]
      have hI : monthIncomes k (t :: ts) = monthIncomes k ts := by
        simp [monthIncomes, List.filter_cons, hk]
      have hE : monthExpenses k (t :: ts) = monthExpenses k ts := by
        simp [monthExpenses, List.filter_cons, hk]
      rw [ih (monthlyStep acc t), hlk, hfc, hI, hE]

/-- Claim C8 (amended): the monthly series enforces only the lower bound
of the window — every transaction dated before the window start (the first
of the month five months before the current month) contributes to no
entry; the kept transactions, future months included, are grouped by month
name, each entry carrying the income and expense sums of its month; a
month with no kept transaction has no entry (omitted, not zero-filled). -/
theorem monthlySeries_window_lower_bound (now : JDate) (ts : List Transaction)
    (t : Transaction) (k : ℤ) :
    (jlt t.date (windowStart now) = true →
      monthlySeries now (t :: ts) = monthlySeries now ts) ∧
    ((∃ u ∈ ts, jle (windowStart now) u.date = true ∧ monthKey u.date = k) →
      lookupMonth (monthlySeries now ts) k = some
        ((monthIncomes k (ts.filter fun u => jle (windowStart now) u.date)).sum,
         (monthExpenses k (ts.filter fun u => jle (windowStart now) u.date)).sum)) ∧
    ((∀ u ∈ ts, jle (windowStart now) u.date = true → monthKey u.date ≠ k) →
      lookupMonth (monthlySeries now ts) k = none) := by
  refine ⟨?_, ?_, ?_⟩
  · intro h
    rw [monthlySeries, monthlySeries, List.filter_cons,
      if_neg (by simp [jle, h])]
  · rintro ⟨u, hu, huw, huk⟩
    rw [monthlySeries, foldl_monthlyStep_lookup]
    have hne : ¬ (((ts.filter fun t => jle (windowStart now) t.date).filter
        (fun t => decide (monthKey t.date = k))) = []
          ∧ lookupMonth [] k = none) := by
      rintro ⟨h1, -⟩
      have hmem : u ∈ (ts.filter fun t => jle (windowStart now) t.date).filter
          (fun t => decide (monthKey t.date = k)) := by
        simp [List.mem_filter, hu, huw, huk]
      rw [h1] at hmem
      simp at hmem
    rw [if_neg hne]
    simp [lookupMonth]
  · intro hall
    rw [monthlySeries, foldl_monthlyStep_lookup]
    have h1 : ((ts.filter fun t => jle (windowStart now) t.date).filter
        (fun t => decide (monthKey t.date = k))) = [] := by
      rw [List.filter_eq_nil_iff]
      intro t ht
      have htm := List.mem_filter.mp ht
      simp only [decide_eq_true_eq]
      exact hall t htm.1 htm.2
    rw [if_pos ⟨h1, by simp [lookupMonth]⟩]

/-- Witness for the amended claim C8: a transaction dated before the
window start is dropped; a kept (future) transaction's month carries its
expense sum as its entry; a month with no transaction has no entry. -/
theorem monthlySeries_window_lower_bound_witness :
    jlt (⟨24270, 3, 0⟩ : JDate) (windowStart ⟨24288, 15, 0⟩) = true ∧
    monthlySeries ⟨24288, 15, 0⟩
        [⟨"t0", .income, 10, ⟨24270, 3, 0⟩, "cb", "a1", "w"⟩, futureTx]
      = monthlySeries ⟨24288, 15, 0⟩ [futureTx] ∧
    lookupMonth (monthlySeries ⟨24288, 15, 0⟩ [futureTx])
        (monthKey futureTx.date) = some (0, 100) ∧
    lookupMonth (monthlySeries ⟨24288, 15, 0⟩ [futureTx]) 3 = none := by
  refine ⟨by decide, ?_, ?_, ?_⟩
  · exact (monthlySeries_window_lower_bound ⟨24288, 15, 0⟩ [futureTx]
      ⟨"t0", .income, 10, ⟨24270, 3, 0⟩, "cb", "a1", "w"⟩ 0).1 (by decide)
  · have h := (monthlySeries_window_lower_bound ⟨24288, 15, 0⟩ [futureTx]
      futureTx (monthKey futureTx.date)).2.1
      ⟨futureTx, by simp, by decide, rfl⟩
    rw [h]
    have h1 : monthIncomes (monthKey futureTx.date)
        ([futureTx].filter fun u => jle (windowStart ⟨24288, 15, 0⟩) u.date)
          = [] := by decide
    have h2 : monthExpenses (monthKey futureTx.date)
        ([futureTx].filter fun u => jle (windowStart ⟨24288, 15, 0⟩) u.date)
          = [100] := by decide
    rw [h1, h2]
    norm_num
  · exact (monthlySeries_window_lower_bound ⟨24288, 15, 0⟩ [futureTx]
      futureTx 3).2.2 (by decide)

/-- Advance a date by one calendar week, rolling over a month boundary. -/
def addWeek (x : JDate) : JDate :=
  if x.d + 7 ≤ dim x.m then ⟨x.m, x.d + 7, x.t⟩
  else ⟨x.m + 1, x.d + 7 - dim x.m, x.t⟩

/-- Advance a date by one calendar month, clamping the day of month to the
last valid day of the target month. -/
def addMonthClamped (x : JDate) : JDate :=
  ⟨x.m + 1, min x.d (dim (x.m + 1)), x.t⟩

/-- Advance a date by one calendar year, clamping the day of month. -/
def addYearClamped (x : JDate) : JDate :=
  ⟨x.m + 12, min x.d (dim (x.m + 12)), x.t⟩

/-- Advance a due date by one recurrence period. -/
def advance (x : JDate) : RecType → JDate
  | .weekly => addWeek x
  | .monthly => addMonthClamped x
  | .yearly => addYearClamped x

/-- Modelled from the spec: the successor bill built by the Recurrence
Expander — the same bill with a fresh id, the given due date, pending
status and no installment fields. -/
def succOf (b : Bill) (nid : String) (nd : JDate) : Bill :=
  { b with
      id := nid
      dueDate := nd
      status := .pending
      isInstallment := false
      totalInstallments := none
      currentInstallment := none
      parentBillId := none }

/-- Modelled from the spec: the Recurrence Expander `nextOccurrence`.
The bill-enabled FinanceContext holding the implementation invoked by the
payment form is not among the provided sources; this follows the
specification: advance the due date by one period; if an end date is set
and the next due date passes it, produce nothing; otherwise produce the
pending successor. -/
def nextOccurrence (b : Bill) (nid : String) : Option Bill :=
  match b.recurrenceType with
  | none => none
  | some rt =>
    match b.recurrenceEndDate with
    | some e =>
      if jlt e (advance b.dueDate rt) then none
      else some (succOf b nid (advance b.dueDate rt))
    | none => some (succOf b nid (advance b.dueDate rt))

/-- Mark the bill with the given id as paid. -/
def setPaid (bid : String) (x : Bill) : Bill :=
  if x.id = bid then { x with status := .paid } else x

/-- Modelled from the spec: the Settlement Processor `pay`.  The
bill-enabled FinanceContext holding `payBill` is not among the provided
sources (only its caller, the payment form, is); this follows the
specification: require a pending bill and an existing account, then in one
atomic step debit the account by the bill amount, record an expense
transaction with the bill's amount, category and description, mark the
bill paid, and, for a recurring bill, append the successor produced by the
Recurrence Expander. -/
def payBill (s : FinState) (bid aid tid nid : String) (payDate : JDate) :
    Option FinState :=
  match s.bills.find? (fun x => decide (x.id = bid)) with
  | none => none
  | some b =>
    if b.status = .pending then
      match s.accounts.find? (fun a => decide (a.id = aid)) with
      | some _ =>
        some { s with
          accounts := s.accounts.map fun a =>
            if a.id = aid then { a with balance := a.balance - b.amount } else a,
          transactions := s.transactions ++
            [⟨tid, .expense, b.amount, payDate, b.categoryId, aid, b.description⟩],
          bills := (s.bills.map (setPaid bid)) ++
            (if b.isRecurring then (nextOccurrence b nid).toList else []) }
      | none => none
    else none

/-- Claim C5: paying a recurring pending bill succeeds and appends exactly
one pending successor whose due date is the previous due date advanced by
one recurrence period, unless an end date is set and the advanced date
passes it, in which case no successor is appended. -/
theorem payBill_recurrence_successor (s : FinState) (bid aid tid nid : String)
    (pd : JDate) (b : Bill) (rt : RecType)
    (hfind : s.bills.find? (fun x => decide (x.id = bid)) = some b)
    (hpend : b.status = .pending)
    (hrec : b.isRecurring = true)
    (hrt : b.recurrenceType = some rt)
    (hacct : (s.accounts.find? fun a => decide (a.id = aid)).isSome = true) :
    ∃ s2, payBill s bid aid tid nid pd = some s2 ∧
      ((∀ e, b.recurrenceEndDate = some e →
          jlt e (advance b.dueDate rt) = false) →
        ∃ nb, s2.bills = s.bills.map (setPaid bid) ++ [nb] ∧
          nb.dueDate = advance b.dueDate rt ∧ nb.status = .pending ∧
          nb.isRecurring = true ∧ nb.amount = b.amount ∧
          nb.categoryId = b.categoryId ∧ nb.description = b.description ∧
          s2.bills.length = s.bills.length + 1) ∧
      (∀ e, b.recurrenceEndDate = some e →
        jlt e (advance b.dueDate rt) = true →
          s2.bills = s.bills.map (setPaid bid) ∧
          s2.bills.length = s.bills.length) := by
  obtain ⟨a0, ha0⟩ := Option.isSome_iff_exists.mp hacct
  have hpay : payBill s bid aid tid nid pd = some
      { s with
          accounts := s.accounts.map fun a =>
            if a.id = aid then { a with balance := a.balance - b.amount } else a
          transactions := s.transactions ++
            [⟨tid, .expense, b.amount, pd, b.categoryId, aid, b.description⟩]
          bills := (s.bills.map (setPaid bid)) ++
            (if b.isRecurring then (nextOccurrence b nid).toList else []) } := by
    simp only [payBill, hfind, hpend, ha0, if_true]
  refine ⟨_, hpay, ?_, ?_⟩
  · intro hin
    cases hend : b.recurrenceEndDate with
    | none =>
      refine ⟨succOf b nid (advance b.dueDate rt), ?_, rfl, rfl, hrec, rfl,
        rfl, rfl, ?_⟩
      · simp [hrec, nextOccurrence, hrt, hend]
      · simp [hrec, nextOccurrence, hrt, hend]
    | some e =>
      have hlt := hin e hend
      refine ⟨succOf b nid (advance b.dueDate rt), ?_, rfl, rfl, hrec, rfl,
        rfl, rfl, ?_⟩
      · simp [hrec, nextOccurrence, hrt, hend, hlt]
      · simp [hrec, nextOccurrence, hrt, hend, hlt]
  · intro e hend hlt
    constructor
    · simp [hrec, nextOccurrence, hrt, hend, hlt]
    · simp [hrec, nextOccurrence, hrt, hend, hlt]

/-- The recurring rent bill of the specification example: 150 due
2024-01-10, monthly, ending 2024-03-10. -/
def billRec : Bill :=
  ⟨"b1", "Aluguel", 150, ⟨24288, 10, 0⟩, "c6", .pending,
    false, none, none, none, true, some .monthly, some ⟨24290, 10, 0⟩⟩

/-- The store of the specification example: one account with balance 2000
and the recurring rent bill. -/
def s5 : FinState :=
  ⟨[], [catMoradia], [⟨"a1", "Banco", 2000, .bank⟩], [billRec]⟩

/-- Witness for claim C5 at the specification example: paying the rent
bill appends exactly one successor due 2024-02-10. -/
theorem payBill_recurrence_successor_witness :
    s5.bills.find? (fun x => decide (x.id = "b1")) = some billRec ∧
    billRec.status = .pending ∧ billRec.isRecurring = true ∧
    billRec.recurrenceType = some .monthly ∧
    ∃ s2 : FinState, payBill s5 "b1" "a1" "t1" "b2" ⟨24288, 15, 0⟩ = some s2 ∧
      ∃ nb : Bill, nb.dueDate = advance billRec.dueDate .monthly ∧
        nb.status = .pending ∧ s2.bills.length = 2 := by
  refine ⟨by decide, rfl, rfl, rfl, ?_⟩
  obtain ⟨s2, hpay, hsucc, -⟩ := payBill_recurrence_successor s5 "b1" "a1" "t1"
    "b2" ⟨24288, 15, 0⟩ billRec .monthly (by decide) rfl rfl rfl (by decide)
  obtain ⟨nb, -, hdue, hst, -, -, -, -, hlen⟩ := hsucc (by
    intro e he
    rw [show billRec.recurrenceEndDate = some ⟨24290, 10, 0⟩ from rfl,
      Option.some.injEq] at he
    rw [← he]
    decide)
  exact ⟨s2, hpay, nb, hdue, hst, by rw [hlen]; rfl⟩

end VibeFin
